import Mathlib

/-!
Shallow embedding of `src/lib/schedule.c` (the EDF task scheduler) and proofs
of the specification claims about it.

All times, ticks and durations in the source are `uint64_t`; they are modelled
as `Nat` with explicit reduction modulo `W = 2 ^ 64` exactly where the C code
performs 64-bit arithmetic.  External collaborators (`clock_us_to_ticks`,
`PLATFORM_SCHEDULE_COST`, the platform timer) are parameters of the model, so
every theorem holds for every instantiation of them.
-/

namespace Sched

/-- Modulus of the C type `uint64_t`, used for all times and ticks. -/
def W : Nat := 2 ^ 64

/-- Wrapping 64-bit addition on `uint64_t` values. -/
def uadd (a b : Nat) : Nat := (a + b) % W

/-- Wrapping 64-bit subtraction `a - b` on `uint64_t` values. -/
def usub (a b : Nat) : Nat := (a + (W - b % W)) % W

/-- Task states `TASK_STATE_QUEUED / RUNNING / COMPLETED / CANCEL`
from `reef/schedule.h`. -/
inductive TaskState where
  | QUEUED
  | RUNNING
  | COMPLETED
  | CANCEL
deriving DecidableEq, Repr

/-- `struct task`: the timing and state fields used by `schedule.c`.
`tid` stands in for the task object's identity (its address in C);
queue membership and targeted mutation go through it. -/
structure Task where
  tid : Nat
  state : TaskState
  start : Nat
  deadline : Nat
  max_rtime : Nat
deriving DecidableEq, Repr

/-- External platform collaborators of `schedule.c`: the microsecond-to-tick
conversion `clock_us_to_ticks(clock, us)` and the `PLATFORM_SCHEDULE_COST`
overhead constant.  The scheduler model is parametric in them; the returned
tick counts are `uint64_t`, so they are reduced modulo `W` at each use. -/
structure Env where
  toTicks : Nat → Nat → Nat
  cost : Nat

/-- `struct schedule_data`: the task list, the clock id, and the pending state
of `PLATFORM_SCHEDULE_IRQ` (raised by `schedule()`, cleared by
`interrupt_clear` inside `schedule_edf()`).  The spinlock serialises the
operations; each model function is one complete critical section. -/
structure SchedData where
  list : List Task
  clock : Nat
  irq_pending : Bool
deriving Repr

/-- `SLOT_ALIGN_TRIES` from `schedule.c`. -/
def SLOT_ALIGN_TRIES : Nat := 10

/-- The `for` loop of `edf_reschedule`: up to `fuel` times advance `start` by
`delta` (wrapping); accept as soon as the advanced start strictly exceeds
`current + delta`, returning it; otherwise return `none`. -/
def align_loop (delta current : Nat) : Nat → Nat → Option Nat
  | 0, _ => none
  | fuel + 1, start =>
    let s := uadd start delta
    if uadd current delta < s then some s else align_loop delta current fuel s

/-- `edf_reschedule` from `schedule.c`: recompute a missed task's window.
`delta = (deadline - start) << 1`; try to realign the start on a slot
boundary, else force `start = current + delta`; either way
`deadline = start + delta`. -/
def edf_reschedule (task : Task) (current : Nat) : Task :=
  let delta := (usub task.deadline task.start * 2) % W
  match align_loop delta current SLOT_ALIGN_TRIES task.start with
  | some s => { task with start := s, deadline := uadd s delta }
  | none =>
    let s := uadd current delta
    { task with start := s, deadline := uadd s delta }

/-- Effective deadline `task->deadline - task->max_rtime` (uint64),
as computed inside `edf_get_next`. -/
def effdl (t : Task) : Nat := usub t.deadline t.max_rtime

/-- `UINT64_MAX`, the sentinel initial value of `next_delta` in
`edf_get_next`. -/
def UMAX : Nat := W - 1

/-- Loop state of `edf_get_next`: the best candidate so far (`next_delta`
starts at the sentinel `UINT64_MAX`; `next` records the best task and its
index in the output queue), the `reschedule` counter, the queue being rebuilt
in order, and the tasks deleted during the pass. -/
structure ScanSt where
  next_delta : Nat
  next : Option (Nat × Task)
  resch : Nat
  queue : List Task
  removed : List Task
deriving Repr

/-- One iteration of the `list_for_item_safe` loop body of `edf_get_next`:
skip non-queued tasks; a live queued task (current strictly before its
effective deadline) competes for the minimum delta (strict improvement only,
so the first minimum encountered is kept); a missed queued task is cancelled
and removed if it is the first miss of the pass (`reschedule` still 0),
and repaired in place by `edf_reschedule` otherwise. -/
def edf_step (current : Nat) (st : ScanSt) (t : Task) : ScanSt :=
  if t.state ≠ TaskState.QUEUED then
    { st with queue := st.queue ++ [t] }
  else if current < effdl t then
    if effdl t - current < st.next_delta then
      { st with
          next_delta := effdl t - current
          next := some (st.queue.length, t)
          queue := st.queue ++ [t] }
    else
      { st with queue := st.queue ++ [t] }
  else if st.resch ≠ 0 then
    { st with
        queue := st.queue ++ [edf_reschedule t current]
        resch := st.resch + 1 }
  else
    { st with
        removed := st.removed ++ [{ t with state := TaskState.CANCEL }]
        resch := st.resch + 1 }

/-- Initial loop state of `edf_get_next`. -/
def initScan : ScanSt := ⟨UMAX, none, 0, [], []⟩

/-- The whole scan of `edf_get_next` over the task list, front to back. -/
def edf_scan (current : Nat) (l : List Task) : ScanSt :=
  l.foldl (edf_step current) initScan

/-- `edf_get_next` from `schedule.c`.  The `ignore` parameter is declared by
the source but never read; it is kept to mirror the source signature. -/
def edf_get_next (current : Nat) (_ignore : Option Task) (l : List Task) : ScanSt :=
  edf_scan current l

/-- Result of one `schedule_edf()` call: the updated scheduler data, the
returned `next_plus1_task` (its value at return time, i.e. after any `start`
mutation), and the task handed to `arch_run_task` (dispatched), if any. -/
structure EdfOut where
  sch : SchedData
  next : Option Task
  ran : Option Task
deriving Repr

/-- `schedule_edf` from `schedule.c`: select under the lock, clear the IRQ;
if the selected task's start is in the future return it untouched, otherwise
select again (the `ignore` argument is not applied by the source), set the
due task's `start = current` and dispatch it. -/
def schedule_edf (current : Nat) (sch : SchedData) : EdfOut :=
  let st := edf_get_next current none sch.list
  let sch1 : SchedData := { sch with list := st.queue, irq_pending := false }
  match st.next with
  | none => ⟨sch1, none, none⟩
  | some (_, task) =>
    if current < task.start then
      ⟨sch1, some task, none⟩
    else
      let st2 := edf_get_next current (some task) sch1.list
      ⟨{ sch1 with
           list := st2.queue.map
             (fun u => if u.tid = task.tid then { u with start := current } else u) },
       st2.next.map
         (fun p => if p.2.tid = task.tid then { p.2 with start := current } else p.2),
       some { task with start := current }⟩

/-- `schedule()`: raise `PLATFORM_SCHEDULE_IRQ` to request a pass. -/
def schedule (sch : SchedData) : SchedData := { sch with irq_pending := true }

/-- errno-style error: `-EAGAIN` returned by `schedule_task_del`. -/
inductive SchedError where
  | EAGAIN
deriving DecidableEq, Repr

/-- `schedule_task` from `schedule.c`: reject a RUNNING task, otherwise
compute the absolute window (`start == 0` means start now; otherwise advance
the previous start by the converted microseconds minus
`PLATFORM_SCHEDULE_COST`), append to the list as QUEUED and request a pass. -/
def schedule_task (env : Env) (sch : SchedData) (task : Task)
    (start deadline current : Nat) : SchedData × Task :=
  if task.state = TaskState.RUNNING then (sch, task)
  else
    let s := if start = 0 then current
             else usub (uadd task.start (env.toTicks sch.clock start % W)) env.cost
    let t : Task := { task with
                        start := s
                        deadline := uadd s (env.toTicks sch.clock deadline % W)
                        state := TaskState.QUEUED }
    (schedule { sch with list := sch.list ++ [t] }, t)

/-- `schedule_task_del` from `schedule.c`: `-EAGAIN` on a RUNNING task (no
mutation), otherwise unlink the task and set its state to COMPLETED. -/
def schedule_task_del (sch : SchedData) (task : Task) :
    SchedData × Task × Except SchedError Unit :=
  if task.state = TaskState.RUNNING then
    (sch, task, Except.error SchedError.EAGAIN)
  else
    ({ sch with list := sch.list.filter (fun u => u.tid ≠ task.tid) },
     { task with state := TaskState.COMPLETED },
     Except.ok ())

/-- `schedule_task_complete` from `schedule.c`. -/
def schedule_task_complete (sch : SchedData) (task : Task) : SchedData × Task :=
  ({ sch with list := sch.list.filter (fun u => u.tid ≠ task.tid) },
   { task with state := TaskState.COMPLETED })

/-- `scheduler_run` from `schedule.c`: run `schedule_edf` and, when it
returns a next task, the absolute time at which
`work_reschedule_default_at` arms the deferred wakeup (`next_task->start`). -/
def scheduler_run (current : Nat) (sch : SchedData) : EdfOut × Option Nat :=
  let o := schedule_edf current sch
  (o, o.next.map (fun t => t.start))

/-- Specification function transcribed from the claim (miss-pass policy):
among queued tasks whose effective deadline is at or before `current`, the
first missed task in list order is removed from the queue and marked CANCEL;
every subsequent missed one is repaired with `edf_reschedule` and kept
queued; all other tasks are kept unchanged.  Returns the resulting queue and
the removed tasks. -/
def missPassSpec (current : Nat) : Bool → List Task → List Task × List Task
  | _, [] => ([], [])
  | seen, t :: rest =>
    if t.state = TaskState.QUEUED ∧ ¬ current < effdl t then
      if seen then
        ((edf_reschedule t current) :: (missPassSpec current true rest).1,
         (missPassSpec current true rest).2)
      else
        ((missPassSpec current true rest).1,
         { t with state := TaskState.CANCEL } :: (missPassSpec current true rest).2)
    else
      (t :: (missPassSpec current seen rest).1,
       (missPassSpec current seen rest).2)

/-! ## Arithmetic helpers for the 64-bit model -/

theorem W_pos : 0 < W := by decide

theorem uadd_eq (a b : Nat) (h : a + b < W) : uadd a b = a + b :=
  Nat.mod_eq_of_lt h

theorem usub_eq (a b : Nat) (hb : b ≤ a) (ha : a < W) : usub a b = a - b := by
  have hbW : b < W := lt_of_le_of_lt hb ha
  have h1 : b % W = b := Nat.mod_eq_of_lt hbW
  have h2 : a + (W - b) = W + (a - b) := by omega
  unfold usub
  rw [h1, h2, Nat.add_mod_left, Nat.mod_eq_of_lt (by omega)]

/-! ## Concrete inputs used by witnesses and counterexamples -/

/-- A concrete platform instantiation: microseconds convert one-to-one to
ticks and the scheduling overhead constant is zero. -/
def env0 : Env := ⟨fun _ us => us, 0⟩

/-- A concrete platform instantiation with a nonzero scheduling overhead. -/
def env1 : Env := ⟨fun _ us => us, 2⟩

/-- An empty scheduler. -/
def schEmpty : SchedData := ⟨[], 0, false⟩

/-- A concrete RUNNING task. -/
def tRun : Task := ⟨1, TaskState.RUNNING, 5, 10, 2⟩

/-- A scheduler holding `tRun`. -/
def schRun : SchedData := ⟨[tRun], 0, false⟩

/-- A concrete QUEUED task. -/
def tQ : Task := ⟨2, TaskState.QUEUED, 0, 100, 0⟩

/-- A scheduler holding `tQ`. -/
def schQ : SchedData := ⟨[tQ], 0, false⟩

/-- A concrete COMPLETED task used to exercise re-admission. -/
def tIns : Task := ⟨3, TaskState.COMPLETED, 50, 60, 0⟩

/-- A concrete CANCEL task used to exercise re-admission. -/
def tCan : Task := ⟨4, TaskState.CANCEL, 9, 12, 1⟩

/-! ## C3: cancelling a RUNNING task is rejected with Busy, no mutation -/

/-- Claim C3: for every task whose state is Running, `schedule_task_del`
returns the Busy error (`-EAGAIN`) and leaves the scheduler data and the
task (state, queue membership, start, deadline) unchanged. -/
theorem cancel_busy_rejection (sch : SchedData) (task : Task)
    (h : task.state = TaskState.RUNNING) :
    schedule_task_del sch task = (sch, task, Except.error SchedError.EAGAIN) := by
  simp [schedule_task_del, h]

/-- Witness for C3 at a concrete RUNNING task. -/
theorem cancel_busy_rejection_witness :
    schedule_task_del schRun tRun = (schRun, tRun, Except.error SchedError.EAGAIN) :=
  cancel_busy_rejection schRun tRun rfl

/-! ## C4: cancelling a non-running task

The source sets the state of a deleted task to `TASK_STATE_COMPLETED`,
not `TASK_STATE_CANCEL`, so the claim's "sets its state to Cancelled"
fails; removal and the success return value hold as claimed. -/

/-- Counterexample to C4 as stated: deleting the concrete queued (and hence
not Running) task `tQ` does not set its state to CANCEL (the source sets
COMPLETED instead). -/
theorem cancel_not_cancelled_cex :
    ¬ ((schedule_task_del schQ tQ).2.1.state = TaskState.CANCEL) := by decide

/-- Claim C4 (amended): for every task whose state is not Running,
`schedule_task_del` removes the task from the scheduler's collection, sets
its state to Completed, and returns success. -/
theorem cancel_nonrunning (sch : SchedData) (task : Task)
    (h : task.state ≠ TaskState.RUNNING) :
    (schedule_task_del sch task).1.list
      = sch.list.filter (fun u => u.tid ≠ task.tid) ∧
    (∀ u ∈ (schedule_task_del sch task).1.list, u.tid ≠ task.tid) ∧
    (schedule_task_del sch task).2.1 = { task with state := TaskState.COMPLETED } ∧
    (schedule_task_del sch task).2.2 = Except.ok () := by
  refine ⟨?_, ?_, ?_, ?_⟩ <;>
    simp [schedule_task_del, h, List.mem_filter]

/-- Witness for C4's amended theorem at the concrete queued task `tQ`. -/
theorem cancel_nonrunning_witness :
    (schedule_task_del schQ tQ).1.list
      = schQ.list.filter (fun u => u.tid ≠ tQ.tid) ∧
    (∀ u ∈ (schedule_task_del schQ tQ).1.list, u.tid ≠ tQ.tid) ∧
    (schedule_task_del schQ tQ).2.1 = { tQ with state := TaskState.COMPLETED } ∧
    (schedule_task_del schQ tQ).2.2 = Except.ok () :=
  cancel_nonrunning schQ tQ (by decide)

/-! ## C8: full specification of schedule_task (insert) -/

/-- The effect of a successful insert, stated in exact (non-wrapping)
arithmetic: start rule for both the `start_us == 0` and relative cases,
deadline rule, queueing, and the pass request (IRQ raised). -/
def InsertPost (env : Env) (sch : SchedData) (task : Task)
    (s d cur : Nat) : Prop :=
  (s = 0 → (schedule_task env sch task s d cur).2.start = cur) ∧
  (s ≠ 0 → (schedule_task env sch task s d cur).2.start
      = task.start + env.toTicks sch.clock s - env.cost) ∧
  (schedule_task env sch task s d cur).2.deadline
    = (schedule_task env sch task s d cur).2.start + env.toTicks sch.clock d ∧
  (schedule_task env sch task s d cur).2.state = TaskState.QUEUED ∧
  (schedule_task env sch task s d cur).1.list
    = sch.list ++ [(schedule_task env sch task s d cur).2] ∧
  (schedule_task env sch task s d cur).1.irq_pending = true

/-- Claim C8: a task that is not Running is (re)admitted with
`start = cur` when `start_us = 0`, otherwise
`start = previous start + to_ticks(start_us) - overhead`;
`deadline = start + to_ticks(deadline_us)`; it is appended to the collection
with state Queued and a pass is requested.  A Running task makes the call a
no-op.  The no-overflow hypotheses pin the 64-bit wrapping arithmetic of the
source to the exact arithmetic of the claim. -/
theorem insert_spec (env : Env) (sch : SchedData) (task : Task)
    (s d cur : Nat)
    (hts : env.toTicks sch.clock s < W)
    (htd : env.toTicks sch.clock d < W)
    (hlo : env.cost ≤ task.start + env.toTicks sch.clock s)
    (hhi : task.start + env.toTicks sch.clock s < W)
    (hdl : (schedule_task env sch task s d cur).2.start
             + env.toTicks sch.clock d < W) :
    (task.state = TaskState.RUNNING →
        schedule_task env sch task s d cur = (sch, task)) ∧
    (task.state ≠ TaskState.RUNNING → InsertPost env sch task s d cur) := by
  constructor
  · intro hr
    simp [schedule_task, hr]
  · intro hr
    have hms : env.toTicks sch.clock s % W = env.toTicks sch.clock s :=
      Nat.mod_eq_of_lt hts
    have hmd : env.toTicks sch.clock d % W = env.toTicks sch.clock d :=
      Nat.mod_eq_of_lt htd
    have hstart : (schedule_task env sch task s d cur).2.start
        = if s = 0 then cur
          else task.start + env.toTicks sch.clock s - env.cost := by
      by_cases h0 : s = 0
      · simp [schedule_task, hr, h0]
      · simp only [schedule_task, if_neg hr, h0, if_false, hms]
        rw [uadd_eq _ _ hhi, usub_eq _ _ hlo hhi]
    refine ⟨fun h0 => by rw [hstart, if_pos h0],
            fun h0 => by rw [hstart, if_neg h0], ?_, ?_, ?_, ?_⟩
    · have : (schedule_task env sch task s d cur).2.deadline
          = uadd (schedule_task env sch task s d cur).2.start
              (env.toTicks sch.clock d % W) := by
        simp [schedule_task, hr]
      rw [this, hmd, uadd_eq _ _ hdl]
    · simp [schedule_task, hr]
    · simp [schedule_task, schedule, hr]
    · simp [schedule_task, schedule, hr]

/-- Witness for C8: insert the COMPLETED task `tIns` (previous start 50) with
`start_us = 7`, `deadline_us = 20` at time 42 under `env1` (identity tick
conversion, overhead 2). -/
theorem insert_spec_witness :
    (tIns.state = TaskState.RUNNING →
        schedule_task env1 schEmpty tIns 7 20 42 = (schEmpty, tIns)) ∧
    (tIns.state ≠ TaskState.RUNNING → InsertPost env1 schEmpty tIns 7 20 42) :=
  insert_spec env1 schEmpty tIns 7 20 42 (by decide) (by decide) (by decide)
    (by decide) (by decide)

/-! ## C10: insert re-admits tasks in any non-Running state -/

/-- Re-admission effect: the task ends Queued, appended to the collection,
with recomputed deadline, and a pass is requested. -/
def ReadmitPost (env : Env) (sch : SchedData) (task : Task)
    (s d cur : Nat) : Prop :=
  (schedule_task env sch task s d cur).2.state = TaskState.QUEUED ∧
  (schedule_task env sch task s d cur).1.list
    = sch.list ++ [(schedule_task env sch task s d cur).2] ∧
  (schedule_task env sch task s d cur).1.irq_pending = true ∧
  (schedule_task env sch task s d cur).2.deadline
    = uadd (schedule_task env sch task s d cur).2.start
        (env.toTicks sch.clock d % W)

/-- Claim C10: `schedule_task` accepts a task in any state other than
Running — including the terminal states Completed and Cancelled — re-admits
it with recomputed timing and state Queued; only state Running causes
rejection (and then the call changes nothing). -/
theorem insert_accepts_terminal (env : Env) (sch : SchedData) (task : Task)
    (s d cur : Nat) (h : task.state ≠ TaskState.RUNNING) :
    ReadmitPost env sch task s d cur ∧
    (∀ task2, task2.state = TaskState.RUNNING →
        schedule_task env sch task2 s d cur = (sch, task2)) := by
  refine ⟨⟨?_, ?_, ?_, ?_⟩, fun task2 h2 => by simp [schedule_task, h2]⟩ <;>
    simp [schedule_task, schedule, h]

/-- Witness for C10: the CANCEL (terminal) task `tCan` is re-admitted. -/
theorem insert_accepts_terminal_witness :
    ReadmitPost env0 schEmpty tCan 3 4 9 ∧
    (∀ task2, task2.state = TaskState.RUNNING →
        schedule_task env0 schEmpty task2 3 4 9 = (schEmpty, task2)) :=
  insert_accepts_terminal env0 schEmpty tCan 3 4 9 (by decide)

/-! ## C2: characterization of edf_reschedule (deadline-miss recovery) -/

/-- Frame fact: `edf_reschedule` never changes a task's state. -/
theorem edf_reschedule_state (t : Task) (c : Nat) :
    (edf_reschedule t c).state = t.state := by
  simp only [edf_reschedule]
  split <;> rfl

/-- One unfolding step of the realignment loop. -/
theorem align_loop_succ (delta current fuel start : Nat) :
    align_loop delta current (fuel + 1) start
      = if uadd current delta < uadd start delta then some (uadd start delta)
        else align_loop delta current fuel (uadd start delta) := rfl

/-- Full characterization of the realignment loop, in exact arithmetic under
no-overflow bounds: a `some s` result is the first advanced start (within
`n` iterations) strictly beyond `current + delta`; a `none` result means
every advanced start within `n` iterations failed the test. -/
theorem align_loop_char (delta current : Nat) (n : Nat) :
    ∀ start : Nat, start + n * delta + delta < W → current + delta < W →
    ((∀ s, align_loop delta current n start = some s →
        ∃ k, 1 ≤ k ∧ k ≤ n ∧ s = start + k * delta ∧ current + delta < s ∧
          ∀ j, 1 ≤ j → j < k → start + j * delta ≤ current + delta) ∧
     (align_loop delta current n start = none →
        ∀ k, 1 ≤ k → k ≤ n → start + k * delta ≤ current + delta)) := by
  induction n with
  | zero =>
    intro start _ _
    exact ⟨fun s hs => by simp [align_loop] at hs,
           fun _ k hk1 hk0 => by omega⟩
  | succ n ih =>
    intro start hb hc
    have e1 : (n + 1) * delta = n * delta + delta := by ring
    rw [e1] at hb
    have hsd : uadd start delta = start + delta := uadd_eq _ _ (by omega)
    have hcd : uadd current delta = current + delta := uadd_eq _ _ hc
    by_cases hlt : uadd current delta < uadd start delta
    · have hred : align_loop delta current (n + 1) start
          = some (uadd start delta) := by
        rw [align_loop_succ, if_pos hlt]
      constructor
      · intro s hs
        rw [hred] at hs
        injection hs with hse
        subst hse
        refine ⟨1, le_refl 1, by omega, by rw [hsd, one_mul], ?_, ?_⟩
        · rw [hsd, hcd] at hlt
          rw [hsd]
          exact hlt
        · intro j hj1 hj2
          omega
      · intro hnone
        rw [hred] at hnone
        exact absurd hnone (by simp)
    · have hred : align_loop delta current (n + 1) start
          = align_loop delta current n (start + delta) := by
        rw [align_loop_succ, if_neg hlt, hsd]
      have hfail : start + delta ≤ current + delta := by
        rw [hsd, hcd] at hlt
        omega
      obtain ⟨ihsome, ihnone⟩ := ih (start + delta) (by omega) hc
      constructor
      · intro s hs
        rw [hred] at hs
        obtain ⟨k, hk1, hkn, hks, hklt, hkall⟩ := ihsome s hs
        refine ⟨k + 1, by omega, by omega, by rw [hks]; ring, hklt, ?_⟩
        intro j hj1 hjk
        obtain ⟨j2, rfl⟩ : ∃ j2, j = j2 + 1 := ⟨j - 1, by omega⟩
        by_cases hj0 : j2 = 0
        · subst hj0
          calc start + (0 + 1) * delta = start + delta := by ring
            _ ≤ current + delta := hfail
        · calc start + (j2 + 1) * delta = start + delta + j2 * delta := by ring
            _ ≤ current + delta := hkall j2 (by omega) (by omega)
      · intro hnone
        rw [hred] at hnone
        intro k hk1 hkn
        obtain ⟨k2, rfl⟩ : ∃ k2, k = k2 + 1 := ⟨k - 1, by omega⟩
        by_cases hk0 : k2 = 0
        · subst hk0
          calc start + (0 + 1) * delta = start + delta := by ring
            _ ≤ current + delta := hfail
        · calc start + (k2 + 1) * delta = start + delta + k2 * delta := by ring
            _ ≤ current + delta := ihnone hnone k2 (by omega) (by omega)

/-- The behaviour claimed for deadline-miss recovery, with
`window = 2 * (old_deadline - old_start)`: the new window always satisfies
`new_deadline = new_start + window`; the task's other fields are untouched;
and the new start is either the first of at most `SLOT_ALIGN_TRIES` (= 10)
advances `old_start + k * window` that strictly exceeds `current + window`,
or, when no advance succeeds, the forced value `current + window`. -/
def ReschedPost (t : Task) (current : Nat) : Prop :=
  (edf_reschedule t current).deadline
    = (edf_reschedule t current).start + 2 * (t.deadline - t.start) ∧
  (edf_reschedule t current).state = t.state ∧
  (edf_reschedule t current).max_rtime = t.max_rtime ∧
  (edf_reschedule t current).tid = t.tid ∧
  ((∃ k, 1 ≤ k ∧ k ≤ SLOT_ALIGN_TRIES ∧
      (edf_reschedule t current).start = t.start + k * (2 * (t.deadline - t.start)) ∧
      current + 2 * (t.deadline - t.start) < (edf_reschedule t current).start ∧
      ∀ j, 1 ≤ j → j < k →
        t.start + j * (2 * (t.deadline - t.start))
          ≤ current + 2 * (t.deadline - t.start)) ∨
   ((edf_reschedule t current).start = current + 2 * (t.deadline - t.start) ∧
    ∀ k, 1 ≤ k → k ≤ SLOT_ALIGN_TRIES →
      t.start + k * (2 * (t.deadline - t.start))
        ≤ current + 2 * (t.deadline - t.start)))

/-- Characterization of `edf_reschedule` used both for claim C2 and for the
window-invariant preservation argument. -/
theorem edf_reschedule_char (t : Task) (current : Nat)
    (hds : t.start ≤ t.deadline) (hdW : t.deadline < W)
    (h1 : t.start + 11 * (2 * (t.deadline - t.start)) < W)
    (h2 : current + 2 * (2 * (t.deadline - t.start)) < W) :
    ReschedPost t current := by
  have hUs : usub t.deadline t.start = t.deadline - t.start :=
    usub_eq _ _ hds hdW
  have hdm : (usub t.deadline t.start * 2) % W = 2 * (t.deadline - t.start) := by
    rw [hUs, Nat.mul_comm]
    exact Nat.mod_eq_of_lt (by omega)
  unfold ReschedPost
  unfold edf_reschedule
  rw [hdm]
  obtain ⟨hsome, hnone⟩ :=
    align_loop_char (2 * (t.deadline - t.start)) current SLOT_ALIGN_TRIES t.start
      (by unfold SLOT_ALIGN_TRIES; omega) (by omega)
  cases halign : align_loop (2 * (t.deadline - t.start)) current
      SLOT_ALIGN_TRIES t.start with
  | some s =>
    obtain ⟨k, hk1, hkn, hks, hklt, hkall⟩ := hsome s halign
    have hkmul : k * (2 * (t.deadline - t.start))
        ≤ 10 * (2 * (t.deadline - t.start)) :=
      Nat.mul_le_mul_right _ (by
        have : SLOT_ALIGN_TRIES = 10 := rfl
        omega)
    have hsW : s + 2 * (t.deadline - t.start) < W := by
      rw [hks]; omega
    simp only [halign]
    refine ⟨by simp [uadd_eq _ _ hsW], by simp, by simp, by simp, ?_⟩
    exact Or.inl ⟨k, hk1, hkn, by simpa using hks, by simpa using hklt,
      fun j hj1 hj2 => hkall j hj1 hj2⟩
  | none =>
    have hcd : uadd current (2 * (t.deadline - t.start))
        = current + 2 * (t.deadline - t.start) := uadd_eq _ _ (by omega)
    have hdd : uadd (current + 2 * (t.deadline - t.start))
          (2 * (t.deadline - t.start))
        = current + 2 * (t.deadline - t.start) + 2 * (t.deadline - t.start) :=
      uadd_eq _ _ (by omega)
    simp only [halign]
    refine ⟨?_, by simp, by simp, by simp, ?_⟩
    · simp only [hcd, hdd]
    · exact Or.inr ⟨by simpa using hcd, fun k hk1 hkn => hnone halign k hk1 hkn⟩

/-- Claim C2: for every task and current time (under no-overflow bounds
pinning the 64-bit arithmetic to exact arithmetic), deadline-miss recovery
performs at most 10 realignment iterations of `start += window` with
`window = 2 * (old_deadline - old_start)`, accepts as soon as the advanced
start strictly exceeds `current + window`, forces `start = current + window`
if no iteration succeeds, and always yields
`new_deadline = new_start + window`. -/
theorem edf_reschedule_spec (t : Task) (current : Nat)
    (hds : t.start ≤ t.deadline) (hdW : t.deadline < W)
    (h1 : t.start + 11 * (2 * (t.deadline - t.start)) < W)
    (h2 : current + 2 * (2 * (t.deadline - t.start)) < W) :
    ReschedPost t current :=
  edf_reschedule_char t current hds hdW h1 h2

/-- A concrete task that has slipped far behind: recovery at time 100 must
fall back to the forced `start = current + window` case. -/
def tSlip : Task := ⟨5, TaskState.QUEUED, 0, 5, 0⟩

/-- Witness for C2 at `tSlip` and `current = 100`: window is 10, all ten
advances fail (10·k ≤ 110 for k ≤ 10), so the result is forced to
`start = 110`, `deadline = 120`. -/
theorem edf_reschedule_spec_witness : ReschedPost tSlip 100 :=
  edf_reschedule_spec tSlip 100 (by decide) (by decide) (by decide) (by decide)

/-! ## C1: the first missed task is cancelled, later misses are repaired -/

/-- `edf_step` on a non-queued task: the task is kept, nothing else changes. -/
theorem edf_step_not_queued (current : Nat) (st : ScanSt) (t : Task)
    (h : t.state ≠ TaskState.QUEUED) :
    edf_step current st t = { st with queue := st.queue ++ [t] } := by
  unfold edf_step
  rw [if_pos h]

/-- `edf_step` on a live queued task: the task is kept and only the
candidate-tracking fields may change. -/
theorem edf_step_live_comp (current : Nat) (st : ScanSt) (t : Task)
    (hq : t.state = TaskState.QUEUED) (hl : current < effdl t) :
    (edf_step current st t).queue = st.queue ++ [t] ∧
    (edf_step current st t).removed = st.removed ∧
    (edf_step current st t).resch = st.resch := by
  unfold edf_step
  rw [if_neg (by simp [hq]), if_pos hl]
  by_cases hd : effdl t - current < st.next_delta
  · rw [if_pos hd]
    exact ⟨rfl, rfl, rfl⟩
  · rw [if_neg hd]
    exact ⟨rfl, rfl, rfl⟩

/-- `edf_step` on a missed queued task when a miss was already seen
(`reschedule` counter nonzero): the task is repaired in place. -/
theorem edf_step_missed_again (current : Nat) (st : ScanSt) (t : Task)
    (hq : t.state = TaskState.QUEUED) (hl : ¬ current < effdl t)
    (hr : st.resch ≠ 0) :
    edf_step current st t
      = { st with
            queue := st.queue ++ [edf_reschedule t current]
            resch := st.resch + 1 } := by
  unfold edf_step
  rw [if_neg (by simp [hq]), if_neg hl, if_pos hr]

/-- `edf_step` on the first missed queued task of a pass (`reschedule`
counter still zero): the task is removed from the queue and cancelled. -/
theorem edf_step_missed_first (current : Nat) (st : ScanSt) (t : Task)
    (hq : t.state = TaskState.QUEUED) (hl : ¬ current < effdl t)
    (hr : st.resch = 0) :
    edf_step current st t
      = { st with
            removed := st.removed ++ [{ t with state := TaskState.CANCEL }]
            resch := st.resch + 1 } := by
  unfold edf_step
  rw [if_neg (by simp [hq]), if_neg hl, if_neg (by simp [hr])]

/-- `missPassSpec` keeps a task that is not a missed queued task. -/
theorem missPassSpec_cons_keep (current : Nat) (t : Task) (rest : List Task)
    (seen : Bool) (h : ¬ (t.state = TaskState.QUEUED ∧ ¬ current < effdl t)) :
    missPassSpec current seen (t :: rest)
      = (t :: (missPassSpec current seen rest).1,
         (missPassSpec current seen rest).2) := by
  show (if t.state = TaskState.QUEUED ∧ ¬ current < effdl t then
          if seen then
            (edf_reschedule t current :: (missPassSpec current true rest).1,
             (missPassSpec current true rest).2)
          else
            ((missPassSpec current true rest).1,
             { t with state := TaskState.CANCEL } :: (missPassSpec current true rest).2)
        else
          (t :: (missPassSpec current seen rest).1,
           (missPassSpec current seen rest).2))
      = (t :: (missPassSpec current seen rest).1, (missPassSpec current seen rest).2)
  rw [if_neg h]

/-- `missPassSpec` cancels and removes the first missed task. -/
theorem missPassSpec_cons_first (current : Nat) (t : Task) (rest : List Task)
    (h : t.state = TaskState.QUEUED ∧ ¬ current < effdl t) :
    missPassSpec current false (t :: rest)
      = ((missPassSpec current true rest).1,
         { t with state := TaskState.CANCEL } :: (missPassSpec current true rest).2) := by
  show (if t.state = TaskState.QUEUED ∧ ¬ current < effdl t then
          if (false : Bool) then
            (edf_reschedule t current :: (missPassSpec current true rest).1,
             (missPassSpec current true rest).2)
          else
            ((missPassSpec current true rest).1,
             { t with state := TaskState.CANCEL } :: (missPassSpec current true rest).2)
        else
          (t :: (missPassSpec current false rest).1,
           (missPassSpec current false rest).2))
      = ((missPassSpec current true rest).1,
         { t with state := TaskState.CANCEL } :: (missPassSpec current true rest).2)
  rw [if_pos h]
  rfl

/-- `missPassSpec` repairs a missed task that is not the first miss. -/
theorem missPassSpec_cons_again (current : Nat) (t : Task) (rest : List Task)
    (h : t.state = TaskState.QUEUED ∧ ¬ current < effdl t) :
    missPassSpec current true (t :: rest)
      = (edf_reschedule t current :: (missPassSpec current true rest).1,
         (missPassSpec current true rest).2) := by
  show (if t.state = TaskState.QUEUED ∧ ¬ current < effdl t then
          if (true : Bool) then
            (edf_reschedule t current :: (missPassSpec current true rest).1,
             (missPassSpec current true rest).2)
          else
            ((missPassSpec current true rest).1,
             { t with state := TaskState.CANCEL } :: (missPassSpec current true rest).2)
        else
          (t :: (missPassSpec current true rest).1,
           (missPassSpec current true rest).2))
      = (edf_reschedule t current :: (missPassSpec current true rest).1,
         (missPassSpec current true rest).2)
  rw [if_pos h]
  rfl

/-- The queue and removed-task effect of the whole `edf_get_next` pass equals
the claim's miss policy (`missPassSpec`), for every starting loop state whose
`reschedule` counter agrees with the `seen` flag. -/
theorem edf_scan_missPass (current : Nat) :
    ∀ (l : List Task) (st : ScanSt) (seen : Bool),
      (st.resch ≠ 0 ↔ seen = true) →
      (l.foldl (edf_step current) st).queue
          = st.queue ++ (missPassSpec current seen l).1 ∧
      (l.foldl (edf_step current) st).removed
          = st.removed ++ (missPassSpec current seen l).2 := by
  intro l
  induction l with
  | nil =>
    intro st seen hseen
    simp [missPassSpec]
  | cons t rest ih =>
    intro st seen hseen
    rw [List.foldl_cons]
    by_cases hq : t.state = TaskState.QUEUED
    · by_cases hl : current < effdl t
      · have hcond : ¬ (t.state = TaskState.QUEUED ∧ ¬ current < effdl t) :=
          fun h => h.2 hl
        obtain ⟨e1, e2, e3⟩ := edf_step_live_comp current st t hq hl
        obtain ⟨ih1, ih2⟩ := ih (edf_step current st t) seen (by rw [e3]; exact hseen)
        rw [missPassSpec_cons_keep current t rest seen hcond]
        constructor
        · rw [ih1, e1]
          simp
        · rw [ih2, e2]
      · have hcond : t.state = TaskState.QUEUED ∧ ¬ current < effdl t := ⟨hq, hl⟩
        by_cases hr : st.resch = 0
        · have hseen0 : seen = false := by
            cases seen with
            | false => rfl
            | true => exact absurd (hseen.mpr rfl) (by simp [hr])
          subst hseen0
          rw [edf_step_missed_first current st t hq hl hr]
          obtain ⟨ih1, ih2⟩ := ih
            { st with
                removed := st.removed ++ [{ t with state := TaskState.CANCEL }]
                resch := st.resch + 1 } true (by simp)
          rw [missPassSpec_cons_first current t rest hcond]
          constructor
          · rw [ih1]
          · rw [ih2]
            simp
        · have hseen1 : seen = true := hseen.mp hr
          subst hseen1
          rw [edf_step_missed_again current st t hq hl hr]
          obtain ⟨ih1, ih2⟩ := ih
            { st with
                queue := st.queue ++ [edf_reschedule t current]
                resch := st.resch + 1 } true (by simp)
          rw [missPassSpec_cons_again current t rest hcond]
          constructor
          · rw [ih1]
            simp
          · rw [ih2]
    · have hcond : ¬ (t.state = TaskState.QUEUED ∧ ¬ current < effdl t) :=
        fun h => hq h.1
      rw [edf_step_not_queued current st t hq]
      obtain ⟨ih1, ih2⟩ := ih { st with queue := st.queue ++ [t] } seen
        (by simpa using hseen)
      rw [missPassSpec_cons_keep current t rest seen hcond]
      constructor
      · rw [ih1]
        simp
      · rw [ih2]

/-- Claim C1: in a single `edf_get_next` pass, among the queued tasks whose
effective deadline `deadline - max_rtime` is at or before `current`, the
first missed task in list order is removed from the queue with state set to
CANCEL, and every subsequent missed task is instead repaired by
`edf_reschedule` and remains queued (`edf_reschedule` preserves the QUEUED
state): the pass's queue and removed-task effect coincides with the policy
function `missPassSpec` transcribed from the claim. -/
theorem edf_miss_pass_policy (current : Nat) (l : List Task) :
    (edf_scan current l).queue = (missPassSpec current false l).1 ∧
    (edf_scan current l).removed = (missPassSpec current false l).2 ∧
    ∀ (t : Task) (c : Nat), (edf_reschedule t c).state = t.state := by
  obtain ⟨h1, h2⟩ := edf_scan_missPass current l initScan false (by simp [initScan])
  exact ⟨by simpa [initScan] using h1, by simpa [initScan] using h2,
    fun t c => edf_reschedule_state t c⟩

/-! ## C6: the selector picks the earliest effective deadline -/

/-- Invariant of the `edf_get_next` loop state: when no candidate has been
accepted yet, `next_delta` still holds the `UINT64_MAX` sentinel; `next_delta`
is a lower bound of the deltas of all queued tasks scanned so far; and an
accepted candidate is a queued task of the scanned prefix attaining
`next_delta`, strictly smaller than every queued task before it. -/
def SelInv (current : Nat) (st : ScanSt) : Prop :=
  (st.next = none → st.next_delta = UMAX) ∧
  (∀ j, (h : j < st.queue.length) →
      (st.queue[j]).state = TaskState.QUEUED →
      st.next_delta ≤ effdl st.queue[j] - current) ∧
  (∀ i t, st.next = some (i, t) →
      ∃ h : i < st.queue.length,
        st.queue[i] = t ∧ t.state = TaskState.QUEUED ∧
        effdl t - current = st.next_delta ∧
        ∀ j, (hj : j < st.queue.length) → j < i →
          (st.queue[j]).state = TaskState.QUEUED →
          st.next_delta < effdl st.queue[j] - current)

theorem SelInv_init (current : Nat) : SelInv current initScan := by
  refine ⟨fun _ => rfl, ?_, ?_⟩
  · intro j h
    simp [initScan] at h
  · intro i t h
    simp [initScan] at h

/-- Accepting a strictly better live candidate preserves the invariant. -/
theorem SelInv_step_accept (current : Nat) (st : ScanSt) (t : Task)
    (hq : t.state = TaskState.QUEUED) (hd : effdl t - current < st.next_delta)
    (hinv : SelInv current st) :
    SelInv current
      { st with
          next_delta := effdl t - current
          next := some (st.queue.length, t)
          queue := st.queue ++ [t] } := by
  obtain ⟨inv1, inv2, inv3⟩ := hinv
  refine ⟨fun h => by simp at h, ?_, ?_⟩
  · intro j h hqj
    by_cases hj : j < st.queue.length
    · have e : (st.queue ++ [t])[j] = st.queue[j] :=
        List.getElem_append_left hj
      rw [e] at hqj ⊢
      exact le_of_lt (lt_of_lt_of_le hd (inv2 j hj hqj))
    · have h2 : j < st.queue.length + 1 := by simpa using h
      have hj2 : j = st.queue.length := by omega
      subst hj2
      have e : (st.queue ++ [t])[st.queue.length] = t :=
        List.getElem_concat_length st.queue t _ rfl _
      rw [e]
  · intro i u hsome
    have hp := Option.some.inj hsome
    have hi : st.queue.length = i := congrArg Prod.fst hp
    have hu : t = u := congrArg Prod.snd hp
    subst hi
    subst hu
    refine ⟨by simp, List.getElem_concat_length st.queue t _ rfl _, hq, rfl, ?_⟩
    intro j hj hji hqj
    have e : (st.queue ++ [t])[j] = st.queue[j] :=
      List.getElem_append_left hji
    rw [e] at hqj ⊢
    exact lt_of_lt_of_le hd (inv2 j hji hqj)

/-- Appending a task that does not beat the current best (either not queued,
or live with a delta at least `next_delta`) preserves the invariant. -/
theorem SelInv_step_append (current : Nat) (st : ScanSt) (t : Task)
    (hnd : t.state = TaskState.QUEUED → st.next_delta ≤ effdl t - current)
    (hinv : SelInv current st) :
    SelInv current { st with queue := st.queue ++ [t] } := by
  obtain ⟨inv1, inv2, inv3⟩ := hinv
  refine ⟨inv1, ?_, ?_⟩
  · intro j h hqj
    by_cases hj : j < st.queue.length
    · have e : (st.queue ++ [t])[j] = st.queue[j] :=
        List.getElem_append_left hj
      rw [e] at hqj ⊢
      exact inv2 j hj hqj
    · have h2 : j < st.queue.length + 1 := by simpa using h
      have hj2 : j = st.queue.length := by omega
      subst hj2
      have e : (st.queue ++ [t])[st.queue.length] = t :=
        List.getElem_concat_length st.queue t _ rfl _
      rw [e] at hqj ⊢
      exact hnd hqj
  · intro i u hsome
    obtain ⟨h, hget, hstq, hdelta, hfirst⟩ := inv3 i u hsome
    have hlen : i < (st.queue ++ [t]).length := by
      simp
      omega
    have e : (st.queue ++ [t])[i] = st.queue[i] :=
      List.getElem_append_left h
    refine ⟨hlen, by rw [e, hget], hstq, hdelta, ?_⟩
    intro j hj hji hqj
    have hjq : j < st.queue.length := lt_trans hji h
    have e2 : (st.queue ++ [t])[j] = st.queue[j] :=
      List.getElem_append_left hjq
    rw [e2] at hqj ⊢
    exact hfirst j hjq hji hqj

/-- Running the scan over a list of tasks that are all live (and below the
sentinel) when queued: the queue is passed through unchanged, the invariant
is preserved, and the scan can only end without a candidate if it started
without one and saw no queued task. -/
theorem edf_scan_sel (current : Nat) :
    ∀ (l : List Task) (st : ScanSt),
      (∀ t ∈ l, t.state = TaskState.QUEUED →
          current < effdl t ∧ effdl t - current < UMAX) →
      SelInv current st →
      (l.foldl (edf_step current) st).queue = st.queue ++ l ∧
      SelInv current (l.foldl (edf_step current) st) ∧
      ((l.foldl (edf_step current) st).next = none →
          st.next = none ∧ ∀ t ∈ l, t.state ≠ TaskState.QUEUED) := by
  intro l
  induction l with
  | nil =>
    intro st hall hinv
    exact ⟨by simp, hinv, fun h => ⟨h, by simp⟩⟩
  | cons t rest ih =>
    intro st hall hinv
    have ht := hall t (List.mem_cons_self t rest)
    have hrest : ∀ u ∈ rest, u.state = TaskState.QUEUED →
        current < effdl u ∧ effdl u - current < UMAX :=
      fun u hu => hall u (List.mem_cons_of_mem t hu)
    rw [List.foldl_cons]
    by_cases hq : t.state = TaskState.QUEUED
    · have hlive := (ht hq).1
      have hsmall := (ht hq).2
      by_cases hd : effdl t - current < st.next_delta
      · have hstep : edf_step current st t
            = { st with
                  next_delta := effdl t - current
                  next := some (st.queue.length, t)
                  queue := st.queue ++ [t] } := by
          unfold edf_step
          rw [if_neg (by simp [hq]), if_pos hlive, if_pos hd]
        rw [hstep]
        obtain ⟨ihq, ihinv, ihnone⟩ := ih
          { st with
              next_delta := effdl t - current
              next := some (st.queue.length, t)
              queue := st.queue ++ [t] } hrest
          (SelInv_step_accept current st t hq hd hinv)
        refine ⟨by rw [ihq]; simp, ihinv, ?_⟩
        intro hnone
        obtain ⟨hn, -⟩ := ihnone hnone
        simp at hn
      · have hstep : edf_step current st t
            = { st with queue := st.queue ++ [t] } := by
          unfold edf_step
          rw [if_neg (by simp [hq]), if_pos hlive, if_neg hd]
        rw [hstep]
        obtain ⟨ihq, ihinv, ihnone⟩ := ih
          { st with queue := st.queue ++ [t] } hrest
          (SelInv_step_append current st t (fun _ => le_of_not_lt hd) hinv)
        refine ⟨by rw [ihq]; simp, ihinv, ?_⟩
        intro hnone
        obtain ⟨hn, -⟩ := ihnone hnone
        have hUM : st.next_delta = UMAX := hinv.1 (by simpa using hn)
        have hge : st.next_delta ≤ effdl t - current := le_of_not_lt hd
        exfalso
        omega
    · have hstep := edf_step_not_queued current st t hq
      rw [hstep]
      obtain ⟨ihq, ihinv, ihnone⟩ := ih
        { st with queue := st.queue ++ [t] } hrest
        (SelInv_step_append current st t (fun hqc => absurd hqc hq) hinv)
      refine ⟨by rw [ihq]; simp, ihinv, ?_⟩
      intro hnone
      obtain ⟨hn, hall2⟩ := ihnone hnone
      refine ⟨by simpa using hn, ?_⟩
      intro u hu
      rcases List.mem_cons.mp hu with rfl | hu2
      · exact hq
      · exact hall2 u hu2

/-- What the claim states for the selector on an all-live task set: the queue
is untouched and the selected task exists, is queued, attains the minimal
`(deadline - max_rtime) - current`, and is the first in collection order to
attain it. -/
def SelPost (current : Nat) (l : List Task) : Prop :=
  (edf_get_next current none l).queue = l ∧
  ∃ i t, (edf_get_next current none l).next = some (i, t) ∧
    ∃ h : i < l.length, l[i] = t ∧ t.state = TaskState.QUEUED ∧
      (∀ j, (hj : j < l.length) → (l[j]).state = TaskState.QUEUED →
          effdl t - current ≤ effdl l[j] - current) ∧
      (∀ j, (hj : j < l.length) → j < i → (l[j]).state = TaskState.QUEUED →
          effdl t - current < effdl l[j] - current)

/-- Claim C6 (amended): given queued tasks none of which has missed its
effective deadline at `current` — and, as the `UINT64_MAX` sentinel of the
source forces, none of which sits exactly at delta `UINT64_MAX` — the
selector picks exactly the task minimizing `(deadline - max_rtime) - current`,
the first such task in collection order on ties. -/
theorem edf_selects_min (current : Nat) (l : List Task)
    (hall : ∀ t ∈ l, t.state = TaskState.QUEUED →
        current < effdl t ∧ effdl t - current < UMAX)
    (hex : ∃ t ∈ l, t.state = TaskState.QUEUED) :
    SelPost current l := by
  obtain ⟨hq, hinv, hnone⟩ := edf_scan_sel current l initScan hall (SelInv_init current)
  have hqueue : (edf_scan current l).queue = l := by simpa [initScan, edf_scan] using hq
  cases hnext : (edf_scan current l).next with
  | none =>
    obtain ⟨-, hnq⟩ := hnone (by simpa [edf_scan] using hnext)
    obtain ⟨t, htm, htq⟩ := hex
    exact absurd htq (hnq t htm)
  | some p =>
    obtain ⟨i, t⟩ := p
    have hnext2 : (List.foldl (edf_step current) initScan l).next = some (i, t) := hnext
    obtain ⟨h, hget, hstq, hdelta, hfirst⟩ := hinv.2.2 i t hnext2
    have hqueue2 : (List.foldl (edf_step current) initScan l).queue = l := hqueue
    have hlen : i < l.length := by rw [← hqueue2]; exact h
    refine ⟨hqueue, i, t, hnext, hlen, ?_, hstq, ?_, ?_⟩
    · rw [← List.getElem_of_eq hqueue2 h]
      exact hget
    · intro j hj hqj
      have hj2 : j < (List.foldl (edf_step current) initScan l).queue.length := by
        rw [hqueue2]
        exact hj
      have e := List.getElem_of_eq hqueue2 hj2
      have hle := hinv.2.1 j hj2 (by rw [e]; exact hqj)
      rw [e] at hle
      rw [hdelta]
      exact hle
    · intro j hj hji hqj
      have hj2 : j < (List.foldl (edf_step current) initScan l).queue.length := by
        rw [hqueue2]
        exact hj
      have e := List.getElem_of_eq hqueue2 hj2
      have hlt := hfirst j hj2 hji (by rw [e]; exact hqj)
      rw [e] at hlt
      rw [hdelta]
      exact hlt

/-- A live queued task whose delta equals `UINT64_MAX`: the counterexample
input for C6 as literally stated. -/
def tHuge : Task := ⟨6, TaskState.QUEUED, 0, 0, 1⟩

/-- Counterexample to C6 as stated: `tHuge` is queued and has not missed its
effective deadline at time 0 (so the claim requires it to be picked as the
unique candidate), yet the selector returns no task — its delta equals the
`UINT64_MAX` sentinel, which the source's strict comparison never accepts. -/
theorem edf_selects_min_cex :
    tHuge.state = TaskState.QUEUED ∧ 0 < effdl tHuge ∧
    (edf_get_next 0 none [tHuge]).next = none := by decide

/-- Two equal-delta queued tasks for the C6 witness. -/
def tW1 : Task := ⟨7, TaskState.QUEUED, 0, 100, 0⟩

/-- Second of the two equal-delta queued tasks for the C6 witness. -/
def tW2 : Task := ⟨8, TaskState.QUEUED, 0, 100, 0⟩

/-- Witness for C6 (amended) on a two-task tie: the first task in collection
order is picked. -/
theorem edf_selects_min_witness : SelPost 0 [tW1, tW2] :=
  edf_selects_min 0 [tW1, tW2] (by decide) (by decide)

/-- Every candidate the scan accepts is live: `current` is strictly before
its effective deadline. -/
theorem edf_scan_next_live (current : Nat) :
    ∀ (l : List Task) (st : ScanSt),
      (∀ i t, st.next = some (i, t) → current < effdl t) →
      ∀ i t, (l.foldl (edf_step current) st).next = some (i, t) →
        current < effdl t := by
  intro l
  induction l with
  | nil =>
    intro st h
    exact h
  | cons t rest ih =>
    intro st h
    rw [List.foldl_cons]
    apply ih
    intro i u hsome
    unfold edf_step at hsome
    by_cases hq : t.state ≠ TaskState.QUEUED
    · rw [if_pos hq] at hsome
      exact h i u hsome
    · rw [if_neg hq] at hsome
      by_cases hl : current < effdl t
      · rw [if_pos hl] at hsome
        by_cases hd : effdl t - current < st.next_delta
        · rw [if_pos hd] at hsome
          have hp := Option.some.inj hsome
          have hu : t = u := congrArg Prod.snd hp
          rw [← hu]
          exact hl
        · rw [if_neg hd] at hsome
          exact h i u hsome
      · rw [if_neg hl] at hsome
        by_cases hr : st.resch ≠ 0
        · rw [if_pos hr] at hsome
          exact h i u hsome
        · rw [if_neg hr] at hsome
          exact h i u hsome

/-- Liveness of the task returned by `edf_get_next`. -/
theorem edf_get_next_live (current : Nat) (l : List Task) (i : Nat) (t : Task)
    (h : (edf_scan current l).next = some (i, t)) : current < effdl t :=
  edf_scan_next_live current l initScan
    (fun _ _ h0 => by simp [initScan] at h0) i t h

/-! ## C9: a future-start selection is returned unchanged and armed -/

/-- Claim C9: when the selected task's start is strictly in the future, the
pass returns exactly that task — every field unchanged — dispatches nothing,
leaves the post-pass queue in place with the IRQ cleared, and the driver
`scheduler_run` arms the deferred wakeup at the task's start time. -/
theorem pass_future_task (sch : SchedData) (cur : Nat) (i : Nat) (t : Task)
    (hsel : (edf_scan cur sch.list).next = some (i, t))
    (hfut : cur < t.start) :
    schedule_edf cur sch
      = ⟨{ sch with
             list := (edf_scan cur sch.list).queue
             irq_pending := false },
         some t, none⟩ ∧
    (scheduler_run cur sch).2 = some t.start := by
  have h1 : schedule_edf cur sch
      = ⟨{ sch with
             list := (edf_scan cur sch.list).queue
             irq_pending := false },
         some t, none⟩ := by
    unfold schedule_edf edf_get_next
    simp only [hsel]
    rw [if_pos hfut]
  refine ⟨h1, ?_⟩
  unfold scheduler_run
  rw [h1]
  rfl

/-- A queued task far in the future. -/
def tFut : Task := ⟨9, TaskState.QUEUED, 100, 200, 0⟩

/-- A scheduler holding only `tFut`, with the scheduling IRQ pending. -/
def schFut : SchedData := ⟨[tFut], 0, true⟩

/-- Witness for C9: at time 0, `tFut` (start 100) is selected, returned
unchanged without dispatch, and the wakeup is armed at 100. -/
theorem pass_future_task_witness :
    schedule_edf 0 schFut
      = ⟨{ schFut with
             list := (edf_scan 0 schFut.list).queue
             irq_pending := false },
         some tFut, none⟩ ∧
    (scheduler_run 0 schFut).2 = some tFut.start :=
  pass_future_task schFut 0 0 tFut (by decide) (by decide)

/-! ## C7: the end-to-end scenario with a single due task

The source's second selection call receives the just-dispatched task as its
`ignore` argument but never applies the exclusion, so with task A alone the
pass dispatches A and returns A itself — not "none" as the claim states. -/

/-- Task A of the C7 scenario before insertion. -/
def tA : Task := ⟨10, TaskState.QUEUED, 0, 0, 0⟩

/-- The scheduler after inserting task A with `start_us = 0`,
`deadline_us = 1000` at `now = 0` under `env0`. -/
def schA : SchedData := (schedule_task env0 schEmpty tA 0 1000 0).1

/-- Task A as queued by that insertion: start 0, deadline 1000. -/
def tAq : Task := ⟨10, TaskState.QUEUED, 0, 1000, 0⟩

/-- Evaluation of the code at the C7 scenario: the pass at `current = 0`
does dispatch A immediately with `A.start = 0` (as claimed), but returns
`some A` — the just-dispatched task itself — as the task to arm for, not
none: the `ignore` parameter of the second `edf_get_next` call is unused
by the source. -/
theorem pass_single_task_returns_itself :
    (schedule_edf 0 schA).ran = some tAq ∧
    (schedule_edf 0 schA).next = some tAq ∧
    tAq.start = 0 := by decide

/-! ## C5: the `deadline > start` window invariant -/

/-- Counterexample to C5 as stated: inserting a (non-running) task with
`deadline_us = 0` under the legal platform instantiation `env0` yields a
queued task with `deadline = start`, violating `deadline > start`. -/
theorem queued_window_cex :
    (schedule_task env0 schEmpty tQ 0 0 5).2.state = TaskState.QUEUED ∧
    ¬ ((schedule_task env0 schEmpty tQ 0 0 5).2.start
        < (schedule_task env0 schEmpty tQ 0 0 5).2.deadline) := by decide

/-- Claim C5 (amended): each mutation of this scheduler leaves the mutated
task with `deadline > start`, provided the inputs rule out the degenerate
and wrapping cases the source does not guard: insert needs a positive
converted deadline duration (and no 64-bit wrap), recovery needs an input
task with `deadline > start` (and no wrap), and dispatch needs the selected
task's `max_rtime ≤ deadline < 2^64`.  Tasks not touched by the mutation
keep their fields. -/
theorem queued_window_invariant :
    (∀ (env : Env) (sch : SchedData) (task : Task) (s d cur : Nat),
      task.state ≠ TaskState.RUNNING →
      0 < env.toTicks sch.clock d % W →
      (schedule_task env sch task s d cur).2.start
          + env.toTicks sch.clock d % W < W →
      (schedule_task env sch task s d cur).2.start
        < (schedule_task env sch task s d cur).2.deadline) ∧
    (∀ (t : Task) (cur : Nat),
      t.start < t.deadline → t.deadline < W →
      t.start + 11 * (2 * (t.deadline - t.start)) < W →
      cur + 2 * (2 * (t.deadline - t.start)) < W →
      (edf_reschedule t cur).start < (edf_reschedule t cur).deadline) ∧
    (∀ (sch : SchedData) (cur i : Nat) (t : Task),
      (edf_scan cur sch.list).next = some (i, t) →
      ¬ cur < t.start →
      t.max_rtime ≤ t.deadline → t.deadline < W →
      (schedule_edf cur sch).ran = some { t with start := cur } ∧
      cur < t.deadline) := by
  refine ⟨?_, ?_, ?_⟩
  · intro env sch task s d cur hr hpos hov
    have hd : (schedule_task env sch task s d cur).2.deadline
        = uadd (schedule_task env sch task s d cur).2.start
            (env.toTicks sch.clock d % W) := by
      simp [schedule_task, hr]
    rw [hd, uadd_eq _ _ hov]
    omega
  · intro t cur hsd hdw hb1 hb2
    obtain ⟨hdl, -, -, -, -⟩ :=
      edf_reschedule_char t cur (le_of_lt hsd) hdw hb1 hb2
    rw [hdl]
    omega
  · intro sch cur i t hsel hpast hm hdw
    have hlive := edf_get_next_live cur sch.list i t hsel
    have heff : effdl t = t.deadline - t.max_rtime := usub_eq _ _ hm hdw
    have hcur : cur < t.deadline := by
      rw [heff] at hlive
      omega
    refine ⟨?_, hcur⟩
    unfold schedule_edf edf_get_next
    simp only [hsel]
    rw [if_neg hpast]

/-- A queued task due now (start 0) with positive window, for the dispatch
part of the C5 witness. -/
def tDue : Task := ⟨11, TaskState.QUEUED, 0, 50, 3⟩

/-- A scheduler holding only `tDue`. -/
def schDue : SchedData := ⟨[tDue], 0, true⟩

/-- Witness for C5 (amended), applying each conjunct at a concrete input:
an insert with a 7-tick deadline, recovery of `tSlip` at time 100, and the
dispatch of `tDue` at time 0. -/
theorem queued_window_invariant_witness :
    ((schedule_task env0 schEmpty tQ 0 7 5).2.start
        < (schedule_task env0 schEmpty tQ 0 7 5).2.deadline) ∧
    ((edf_reschedule tSlip 100).start < (edf_reschedule tSlip 100).deadline) ∧
    ((schedule_edf 0 schDue).ran = some { tDue with start := 0 } ∧
      0 < tDue.deadline) :=
  ⟨queued_window_invariant.1 env0 schEmpty tQ 0 7 5 (by decide) (by decide)
      (by decide),
   queued_window_invariant.2.1 tSlip 100 (by decide) (by decide) (by decide)
      (by decide),
   queued_window_invariant.2.2 schDue 0 0 tDue (by decide) (by decide)
      (by decide) (by decide)⟩

end Sched
